import Mathlib

/-
Verification of the hybrid phishing-scoring engine (ml-detector.js).

The source is a single JavaScript class `PhishingMLDetector`.  We embed its
pure scoring logic directly: JS strings become `String`/`List Char`, the
regular-expression tests of the heuristic scorer become decidable Boolean
matchers, JS numbers on the remote path become `Rat`, and the network fetch
of the remote client becomes an explicit per-model oracle.
-/

namespace MLDetector

/-! ### String-matching primitives

The heuristic rules of `getEnhancedFallbackScore` use JavaScript regular
expressions built from literal alternatives, `A.*B` (where `.` matches any
character except a newline), and `\$[\d,]+`.  We embed each construct as a
decidable matcher on `List Char`. -/

/-- Lowercasing, as `String.prototype.toLowerCase` (character-wise). -/
def lowerL (l : List Char) : List Char := l.map Char.toLower

/-- Does the needle occur as a prefix of the haystack? -/
def startsWithL : List Char → List Char → Bool
  | [], _ => true
  | _ :: _, [] => false
  | a :: as, b :: bs => a == b && startsWithL as bs

/-- Substring search: `hay.includes(needle)` / an alternative-free regex test. -/
def containsL (needle : List Char) : List Char → Bool
  | [] => startsWithL needle []
  | c :: cs => startsWithL needle (c :: cs) || containsL needle cs

/-- If the needle is a prefix, return the rest of the haystack. -/
def dropStart : List Char → List Char → Option (List Char)
  | [], l => some l
  | _ :: _, [] => none
  | a :: as, b :: bs => if a == b then dropStart as bs else none

/-- Can a regex `.*B` consume characters (none of them a newline, since `.`
does not match newlines) and then match `B`? -/
def seekNoNewline (B : List Char) : List Char → Bool
  | [] => startsWithL B []
  | c :: cs => startsWithL B (c :: cs) || (c != '\n' && seekNoNewline B cs)

/-- Match `A.*B` anchored at the start of the haystack. -/
def headThen (A B : List Char) (l : List Char) : Bool :=
  match dropStart A l with
  | some rest => seekNoNewline B rest
  | none => false

/-- Regex test for `A.*B` (unanchored, as in `text.match(/A.*B/)`). -/
def seekThen (A B : List Char) : List Char → Bool
  | [] => headThen A B []
  | c :: cs => headThen A B (c :: cs) || seekThen A B cs

/-- Is the next character a digit or a comma (the class `[\d,]`)? -/
def dollarStart : List Char → Bool
  | c :: _ => c.isDigit || c == ','
  | [] => false

/-- Regex test for `\$[\d,]+`: a dollar sign followed by at least one digit
or comma, anywhere in the haystack. -/
def dollarAmount : List Char → Bool
  | [] => false
  | c :: cs => (c == '$' && dollarStart cs) || dollarAmount cs

/-! Monotonicity of the matchers under appending text on the right: a match
in `l` survives in `l ++ u`. -/

theorem startsWithL_append (n u : List Char) :
    ∀ l, startsWithL n l = true → startsWithL n (l ++ u) = true := by
  induction n with
  | nil => intro l _; rfl
  | cons a as ih =>
    intro l h
    cases l with
    | nil => simp [startsWithL] at h
    | cons b bs =>
      simp only [startsWithL, Bool.and_eq_true] at h
      simp only [List.cons_append, startsWithL, Bool.and_eq_true]
      exact ⟨h.1, ih bs h.2⟩

theorem startsWithL_nil_eq (n : List Char) (h : startsWithL n [] = true) : n = [] := by
  cases n with
  | nil => rfl
  | cons a as => simp [startsWithL] at h

theorem containsL_nil_needle : ∀ l : List Char, containsL [] l = true := by
  intro l
  cases l with
  | nil => rfl
  | cons c cs => simp [containsL, startsWithL]

theorem containsL_append (n l u : List Char) (h : containsL n l = true) :
    containsL n (l ++ u) = true := by
  induction l with
  | nil =>
    have hn := startsWithL_nil_eq n h
    subst hn
    exact containsL_nil_needle u
  | cons c cs ih =>
    simp only [containsL, Bool.or_eq_true] at h
    simp only [List.cons_append, containsL, Bool.or_eq_true]
    rcases h with h | h
    · exact Or.inl (startsWithL_append n u (c :: cs) h)
    · exact Or.inr (ih h)

theorem dropStart_append (u : List Char) :
    ∀ n l r, dropStart n l = some r → dropStart n (l ++ u) = some (r ++ u) := by
  intro n
  induction n with
  | nil =>
    intro l r h
    simp only [dropStart, Option.some.injEq] at h
    subst h
    rfl
  | cons a as ih =>
    intro l r h
    cases l with
    | nil => simp [dropStart] at h
    | cons b bs =>
      simp only [dropStart] at h
      by_cases hab : (a == b) = true
      · rw [if_pos hab] at h
        simpa only [List.cons_append, dropStart, if_pos hab] using ih bs r h
      · rw [if_neg hab] at h
        exact absurd h (by simp)

theorem seekNoNewline_nil_needle : ∀ l : List Char, seekNoNewline [] l = true := by
  intro l
  cases l with
  | nil => rfl
  | cons c cs => simp [seekNoNewline, startsWithL]

theorem seekNoNewline_append (B u : List Char) :
    ∀ l, seekNoNewline B l = true → seekNoNewline B (l ++ u) = true := by
  intro l
  induction l with
  | nil =>
    intro h
    have hB := startsWithL_nil_eq B h
    subst hB
    exact seekNoNewline_nil_needle u
  | cons c cs ih =>
    intro h
    simp only [seekNoNewline, Bool.or_eq_true, Bool.and_eq_true] at h
    simp only [List.cons_append, seekNoNewline, Bool.or_eq_true, Bool.and_eq_true]
    rcases h with h | ⟨hc, h⟩
    · exact Or.inl (startsWithL_append B u (c :: cs) h)
    · exact Or.inr ⟨hc, ih h⟩

theorem headThen_append (A B l u : List Char) (h : headThen A B l = true) :
    headThen A B (l ++ u) = true := by
  unfold headThen at h ⊢
  cases hd : dropStart A l with
  | none => rw [hd] at h; exact absurd h (by simp)
  | some rest =>
    rw [hd] at h
    rw [dropStart_append u A l rest hd]
    exact seekNoNewline_append B u rest h

theorem seekThen_append (A B l u : List Char) (h : seekThen A B l = true) :
    seekThen A B (l ++ u) = true := by
  induction l with
  | nil =>
    simp only [seekThen] at h
    cases u with
    | nil => exact h
    | cons c cs =>
      simp only [List.nil_append, seekThen, Bool.or_eq_true]
      exact Or.inl (headThen_append A B [] (c :: cs) h)
  | cons c cs ih =>
    simp only [seekThen, Bool.or_eq_true] at h
    simp only [List.cons_append, seekThen, Bool.or_eq_true]
    rcases h with h | h
    · exact Or.inl (headThen_append A B (c :: cs) u h)
    · exact Or.inr (ih h)

theorem dollarStart_append (l u : List Char) (h : dollarStart l = true) :
    dollarStart (l ++ u) = true := by
  cases l with
  | nil => simp [dollarStart] at h
  | cons c cs => exact h

theorem dollarAmount_append (l u : List Char) (h : dollarAmount l = true) :
    dollarAmount (l ++ u) = true := by
  induction l with
  | nil => simp [dollarAmount] at h
  | cons c cs ih =>
    simp only [dollarAmount, Bool.or_eq_true, Bool.and_eq_true] at h
    simp only [List.cons_append, dollarAmount, Bool.or_eq_true, Bool.and_eq_true]
    rcases h with ⟨hc, hd⟩ | h
    · exact Or.inl ⟨hc, dollarStart_append cs u hd⟩
    · exact Or.inr (ih h)

/-- Lift monotonicity through a Boolean disjunction of matchers. -/
theorem or_mono {a b c d : Bool} (h1 : a = true → c = true)
    (h2 : b = true → d = true) : (a || b) = true → (c || d) = true := by
  cases a <;> cases b <;> intro h <;> simp_all

/-- A match also survives prepending text on the left. -/
theorem containsL_prepend (n : List Char) : ∀ x l : List Char,
    containsL n l = true → containsL n (x ++ l) = true := by
  intro x
  induction x with
  | nil => intro l h; exact h
  | cons c cs ih =>
    intro l h
    simp only [List.cons_append, containsL, Bool.or_eq_true]
    exact Or.inr (ih l h)

theorem startsWithL_map (f : Char → Char) :
    ∀ n l, startsWithL n l = true → startsWithL (n.map f) (l.map f) = true := by
  intro n
  induction n with
  | nil => intro l _; rfl
  | cons a as ih =>
    intro l h
    cases l with
    | nil => simp [startsWithL] at h
    | cons b bs =>
      simp only [startsWithL, Bool.and_eq_true, beq_iff_eq] at h
      simp only [List.map_cons, startsWithL, Bool.and_eq_true, beq_iff_eq]
      exact ⟨by rw [h.1], ih bs h.2⟩

/-- A match survives character-wise mapping (used with `Char.toLower`). -/
theorem containsL_map (f : Char → Char) (n : List Char) :
    ∀ l, containsL n l = true → containsL (n.map f) (l.map f) = true := by
  intro l
  induction l with
  | nil =>
    intro h
    have hn := startsWithL_nil_eq n h
    subst hn
    exact containsL_nil_needle _
  | cons c cs ih =>
    intro h
    simp only [containsL, Bool.or_eq_true] at h
    simp only [List.map_cons, containsL, Bool.or_eq_true]
    rcases h with h | h
    · exact Or.inl (by simpa using startsWithL_map f n (c :: cs) h)
    · exact Or.inr (ih h)

/-! ### EmailInput and the heuristic rule evaluator

Embedding of `getEnhancedFallbackScore` (ml-detector.js lines 261 to 328).
Each JS regular-expression test becomes one Boolean rule on the normalized
text; point values and rule order are those of the source. -/

structure EmailInput where
  sender : String
  subject : String
  snippet : String
  deriving DecidableEq

/-- The normalized text: the lowercasing of the space-joined concatenation
of sender, subject and snippet (the template string on line 263). -/
def emailText (e : EmailInput) : List Char :=
  lowerL (e.sender.toList ++ ' ' :: (e.subject.toList ++ ' ' :: e.snippet.toList))

/-- Line 268: `verify your account|account.*suspended|confirm your identity|unusual activity`. -/
def ruleAccountVerify (text : List Char) : Bool :=
  containsL "verify your account".toList text ||
  seekThen "account".toList "suspended".toList text ||
  containsL "confirm your identity".toList text ||
  containsL "unusual activity".toList text

/-- Line 273: `urgent action|click.*immediately|suspended unless|will be closed`. -/
def ruleUrgentAction (text : List Char) : Bool :=
  containsL "urgent action".toList text ||
  seekThen "click".toList "immediately".toList text ||
  containsL "suspended unless".toList text ||
  containsL "will be closed".toList text

/-- Line 278: `won|prize|lottery|million|winner`. -/
def rulePrize (text : List Char) : Bool :=
  containsL "won".toList text ||
  containsL "prize".toList text ||
  containsL "lottery".toList text ||
  containsL "million".toList text ||
  containsL "winner".toList text

/-- Line 283: a dollar amount or `payment.*(?:failed|required|update)`. -/
def rulePayment (text : List Char) : Bool :=
  dollarAmount text ||
  seekThen "payment".toList "failed".toList text ||
  seekThen "payment".toList "required".toList text ||
  seekThen "payment".toList "update".toList text

/-- Line 288: `will be (?:closed|terminated|deleted)|lose access|expire.*soon`. -/
def ruleThreat (text : List Char) : Bool :=
  containsL "will be closed".toList text ||
  containsL "will be terminated".toList text ||
  containsL "will be deleted".toList text ||
  containsL "lose access".toList text ||
  seekThen "expire".toList "soon".toList text

/-- Line 293: `social security|ssn|password|credit card|bank account`. -/
def ruleSensitive (text : List Char) : Bool :=
  containsL "social security".toList text ||
  containsL "ssn".toList text ||
  containsL "password".toList text ||
  containsL "credit card".toList text ||
  containsL "bank account".toList text

/-- Line 298: case-insensitive test of the sender address against
`\.tk|\.ml|\.ga|\.xyz|tempmail|throwaway`; the argument is the lowercased
sender. -/
def ruleSuspiciousDomain (senderLower : List Char) : Bool :=
  containsL ".tk".toList senderLower ||
  containsL ".ml".toList senderLower ||
  containsL ".ga".toList senderLower ||
  containsL ".xyz".toList senderLower ||
  containsL "tempmail".toList senderLower ||
  containsL "throwaway".toList senderLower

/-- Line 303: `bit\.ly|tinyurl|goo\.gl`. -/
def ruleShortener (text : List Char) : Bool :=
  containsL "bit.ly".toList text ||
  containsL "tinyurl".toList text ||
  containsL "goo.gl".toList text

/-- Line 308: `dear (?:customer|user|member)`. -/
def ruleGreeting (text : List Char) : Bool :=
  containsL "dear customer".toList text ||
  containsL "dear user".toList text ||
  containsL "dear member".toList text

/-- Line 313: `kindly|needful|revert back`. -/
def ruleGrammar (text : List Char) : Bool :=
  containsL "kindly".toList text ||
  containsL "needful".toList text ||
  containsL "revert back".toList text

/-- Line 318: the brand list, in source order. -/
def brands : List (List Char) :=
  ["paypal".toList, "amazon".toList, "apple".toList,
   "microsoft".toList, "google".toList, "bank".toList]

/-- Characters after the first `@` of the sender. -/
def afterFirstAt : List Char → Option (List Char)
  | [] => none
  | c :: cs => if c == '@' then some cs else afterFirstAt cs

/-- Characters up to the next `@` (exclusive). -/
def upToAt : List Char → List Char
  | [] => []
  | c :: cs => if c == '@' then [] else c :: upToAt cs

/-- `sender.split('@')[1] || ''` of line 321: the segment between the first
and second `@`, or empty when absent (`[1]` undefined) or itself empty. -/
def domainOf (sender : List Char) : List Char :=
  match afterFirstAt sender with
  | some rest => upToAt rest
  | none => []

/-- `Array.prototype.find`: the first brand of the list occurring in the
text. -/
def findBrand (text : List Char) : List (List Char) → Option (List Char)
  | [] => none
  | b :: bs => if containsL b text then some b else findBrand text bs

/-- Lines 317 to 325: brand impersonation.  The first listed brand occurring
in the text is `brands.find`; 30 points when the sender is nonempty and its
domain part does not contain that brand. -/
def brandScore (sender : String) (text : List Char) : Nat :=
  match findBrand text brands with
  | some b =>
      if sender ≠ "" then
        if containsL b (domainOf sender.toList) then 0 else 30
      else 0
  | none => 0

/-- The unclamped accumulated score of lines 265 to 325: every matched rule
contributes its fixed point value, in source order. -/
def rawScore (sender : String) (text : List Char) : Nat :=
  (if ruleAccountVerify text then 40 else 0) +
  (if ruleUrgentAction text then 35 else 0) +
  (if rulePrize text then 35 else 0) +
  (if rulePayment text then 30 else 0) +
  (if ruleThreat text then 30 else 0) +
  (if ruleSensitive text then 35 else 0) +
  (if ruleSuspiciousDomain (lowerL sender.toList) then 40 else 0) +
  (if ruleShortener text then 20 else 0) +
  (if ruleGreeting text then 15 else 0) +
  (if ruleGrammar text then 10 else 0) +
  brandScore sender text

/-- Lines 261 to 328: the heuristic rule evaluator.  The accumulated score
is clamped by `Math.min(score, 100)` on line 327. -/
def getEnhancedFallbackScore (e : EmailInput) : Nat :=
  min (rawScore e.sender (emailText e)) 100

/-- Claim C6: the heuristic evaluator always lands in the closed interval
[0,100], even when the unclamped rule-point sum exceeds 100. -/
theorem getEnhancedFallbackScore_in_range (e : EmailInput) :
    0 ≤ getEnhancedFallbackScore e ∧ getEnhancedFallbackScore e ≤ 100 :=
  ⟨Nat.zero_le _, Nat.min_le_right _ _⟩

/-! ### Monotonicity of the heuristic rules under appended text -/

theorem ruleAccountVerify_mono (l u : List Char) :
    ruleAccountVerify l = true → ruleAccountVerify (l ++ u) = true := by
  unfold ruleAccountVerify
  exact or_mono (or_mono (or_mono (containsL_append _ _ _) (seekThen_append _ _ _ _))
    (containsL_append _ _ _)) (containsL_append _ _ _)

theorem ruleUrgentAction_mono (l u : List Char) :
    ruleUrgentAction l = true → ruleUrgentAction (l ++ u) = true := by
  unfold ruleUrgentAction
  exact or_mono (or_mono (or_mono (containsL_append _ _ _) (seekThen_append _ _ _ _))
    (containsL_append _ _ _)) (containsL_append _ _ _)

theorem rulePrize_mono (l u : List Char) :
    rulePrize l = true → rulePrize (l ++ u) = true := by
  unfold rulePrize
  exact or_mono (or_mono (or_mono (or_mono (containsL_append _ _ _)
    (containsL_append _ _ _)) (containsL_append _ _ _)) (containsL_append _ _ _))
    (containsL_append _ _ _)

theorem rulePayment_mono (l u : List Char) :
    rulePayment l = true → rulePayment (l ++ u) = true := by
  unfold rulePayment
  exact or_mono (or_mono (or_mono (dollarAmount_append _ _) (seekThen_append _ _ _ _))
    (seekThen_append _ _ _ _)) (seekThen_append _ _ _ _)

theorem ruleThreat_mono (l u : List Char) :
    ruleThreat l = true → ruleThreat (l ++ u) = true := by
  unfold ruleThreat
  exact or_mono (or_mono (or_mono (or_mono (containsL_append _ _ _)
    (containsL_append _ _ _)) (containsL_append _ _ _)) (containsL_append _ _ _))
    (seekThen_append _ _ _ _)

theorem ruleSensitive_mono (l u : List Char) :
    ruleSensitive l = true → ruleSensitive (l ++ u) = true := by
  unfold ruleSensitive
  exact or_mono (or_mono (or_mono (or_mono (containsL_append _ _ _)
    (containsL_append _ _ _)) (containsL_append _ _ _)) (containsL_append _ _ _))
    (containsL_append _ _ _)

theorem ruleShortener_mono (l u : List Char) :
    ruleShortener l = true → ruleShortener (l ++ u) = true := by
  unfold ruleShortener
  exact or_mono (or_mono (containsL_append _ _ _) (containsL_append _ _ _))
    (containsL_append _ _ _)

theorem ruleGreeting_mono (l u : List Char) :
    ruleGreeting l = true → ruleGreeting (l ++ u) = true := by
  unfold ruleGreeting
  exact or_mono (or_mono (containsL_append _ _ _) (containsL_append _ _ _))
    (containsL_append _ _ _)

theorem ruleGrammar_mono (l u : List Char) :
    ruleGrammar l = true → ruleGrammar (l ++ u) = true := by
  unfold ruleGrammar
  exact or_mono (or_mono (containsL_append _ _ _) (containsL_append _ _ _))
    (containsL_append _ _ _)

/-! ### Monotonicity of the brand-impersonation rule

The sender is fixed while the text grows, so the first brand found in the
text can only move to an earlier list position; an earlier brand that was
not in the old text cannot occur in the sender domain either, because every
brand of the domain already occurs in the old text (the normalized text
contains the lowercased sender). -/

theorem upToAt_prefix : ∀ l : List Char, ∃ r, l = upToAt l ++ r := by
  intro l
  induction l with
  | nil => exact ⟨[], rfl⟩
  | cons c cs ih =>
    by_cases hc : (c == '@') = true
    · exact ⟨c :: cs, by simp [upToAt, hc]⟩
    · obtain ⟨r, hr⟩ := ih
      refine ⟨r, ?_⟩
      simp only [upToAt, if_neg hc, List.cons_append]
      rw [← hr]

theorem afterFirstAt_decomp : ∀ l rest : List Char, afterFirstAt l = some rest →
    ∃ pre, l = pre ++ '@' :: rest := by
  intro l
  induction l with
  | nil => intro rest h; simp [afterFirstAt] at h
  | cons c cs ih =>
    intro rest h
    by_cases hc : (c == '@') = true
    · simp only [afterFirstAt, if_pos hc, Option.some.injEq] at h
      subst h
      exact ⟨[], by rw [beq_iff_eq.mp hc]; rfl⟩
    · simp only [afterFirstAt, if_neg hc] at h
      obtain ⟨pre, hpre⟩ := ih rest h
      exact ⟨c :: pre, by rw [hpre]; rfl⟩

theorem lowerL_append (a b : List Char) : lowerL (a ++ b) = lowerL a ++ lowerL b :=
  List.map_append _ _ _

/-- A brand that occurs in the sender domain occurs in the normalized text
(for brands that are already lowercase). -/
theorem contains_domain_to_text (e : EmailInput) (b : List Char) (hb : lowerL b = b)
    (h : containsL b (domainOf e.sender.toList) = true) :
    containsL b (emailText e) = true := by
  unfold domainOf at h
  cases ha : afterFirstAt e.sender.toList with
  | none =>
    rw [ha] at h
    have hn := startsWithL_nil_eq b h
    subst hn
    exact containsL_nil_needle _
  | some rest =>
    rw [ha] at h
    obtain ⟨r, hr⟩ := upToAt_prefix rest
    obtain ⟨pre, hpre⟩ := afterFirstAt_decomp _ _ ha
    have h1 : containsL b rest = true := by
      rw [hr]; exact containsL_append _ _ _ h
    have h2 : containsL b e.sender.toList = true := by
      rw [hpre]
      apply containsL_prepend
      simp only [containsL, Bool.or_eq_true]
      exact Or.inr h1
    have h3 : containsL b (lowerL e.sender.toList) = true := by
      have hm := containsL_map Char.toLower b _ h2
      unfold lowerL at hb
      rw [hb] at hm
      exact hm
    unfold emailText
    rw [lowerL_append]
    exact containsL_append _ _ _ h3

/-- If the first brand found in the text is not in the domain, then after
appending text the (possibly different) first brand found is still not in
the domain. -/
theorem find_brand_mono (dom text u : List Char) :
    ∀ bs : List (List Char),
      (∀ b ∈ bs, containsL b dom = true → containsL b text = true) →
      ∀ b, findBrand text bs = some b →
        containsL b dom = false →
        ∃ b2, findBrand (text ++ u) bs = some b2 ∧ containsL b2 dom = false := by
  intro bs
  induction bs with
  | nil => intro _ b hb _; simp [findBrand] at hb
  | cons b0 rest ih =>
    intro hdom b hb hnb
    by_cases h0 : containsL b0 text = true
    · rw [findBrand, if_pos h0] at hb
      have hbb : b0 = b := by injection hb
      subst hbb
      exact ⟨b0, by rw [findBrand, if_pos (containsL_append _ _ u h0)], hnb⟩
    · rw [findBrand, if_neg h0] at hb
      by_cases h0u : containsL b0 (text ++ u) = true
      · refine ⟨b0, by rw [findBrand, if_pos h0u], ?_⟩
        cases hd : containsL b0 dom with
        | false => rfl
        | true => exact absurd (hdom b0 (List.mem_cons_self _ _) hd) h0
      · rw [findBrand, if_neg h0u]
        exact ih (fun x hx => hdom x (List.mem_cons_of_mem _ hx)) b hb hnb

theorem brandScore_mono (sender : String) (text u : List Char)
    (hdom : ∀ b ∈ brands, containsL b (domainOf sender.toList) = true →
      containsL b text = true) :
    brandScore sender text ≤ brandScore sender (text ++ u) := by
  unfold brandScore
  cases hf : findBrand text brands with
  | none => exact Nat.zero_le _
  | some b =>
    dsimp only
    by_cases hs : sender = ""
    · rw [if_neg (fun h => h hs)]
      exact Nat.zero_le _
    · by_cases hd : containsL b (domainOf sender.toList) = true
      · rw [if_pos hs, if_pos hd]
        exact Nat.zero_le _
      · have hd0 : containsL b (domainOf sender.toList) = false := by
          cases hx : containsL b (domainOf sender.toList) with
          | false => rfl
          | true => exact absurd hx hd
        obtain ⟨b2, hf2, hd2⟩ := find_brand_mono _ text u brands hdom b hf hd0
        rw [hf2]
        dsimp only
        rw [if_pos hs, if_pos hs, if_neg hd, if_neg (by rw [hd2]; simp)]

/-- A matched rule keeps its points when the text grows. -/
theorem points_mono {a b : Bool} (p : Nat) (h : a = true → b = true) :
    (if a then p else 0) ≤ (if b then p else 0) := by
  cases a with
  | false => exact Nat.zero_le _
  | true => simp [h rfl]

theorem rawScore_mono (sender : String) (text u : List Char)
    (hdom : ∀ b ∈ brands, containsL b (domainOf sender.toList) = true →
      containsL b text = true) :
    rawScore sender text ≤ rawScore sender (text ++ u) := by
  unfold rawScore
  refine Nat.add_le_add ?_ (brandScore_mono sender text u hdom)
  refine Nat.add_le_add ?_ (points_mono 10 (ruleGrammar_mono text u))
  refine Nat.add_le_add ?_ (points_mono 15 (ruleGreeting_mono text u))
  refine Nat.add_le_add ?_ (points_mono 20 (ruleShortener_mono text u))
  refine Nat.add_le_add ?_ (le_refl _)
  refine Nat.add_le_add ?_ (points_mono 35 (ruleSensitive_mono text u))
  refine Nat.add_le_add ?_ (points_mono 30 (ruleThreat_mono text u))
  refine Nat.add_le_add ?_ (points_mono 30 (rulePayment_mono text u))
  refine Nat.add_le_add ?_ (points_mono 35 (rulePrize_mono text u))
  exact Nat.add_le_add (points_mono 40 (ruleAccountVerify_mono text u))
    (points_mono 35 (ruleUrgentAction_mono text u))

/-- Adding body text: the snippet grows on the right; sender and subject are
unchanged. -/
def extendSnippet (e : EmailInput) (t : String) : EmailInput :=
  { e with snippet := e.snippet ++ t }

theorem emailText_extend (e : EmailInput) (t : String) :
    emailText (extendSnippet e t) = emailText e ++ lowerL t.toList := by
  unfold emailText extendSnippet lowerL
  simp only [String.toList, String.data_append, List.map_append, List.map_cons,
    List.append_assoc, List.cons_append]

/-- All configured brands are already lowercase. -/
theorem brands_lower : ∀ b ∈ brands, lowerL b = b := by decide

/-- Claim C3: extending an email with additional text (appending to the
snippet) never decreases the heuristic score, whatever extra rules the new
text makes match — including the brand-impersonation rule. -/
theorem getEnhancedFallbackScore_monotone (e : EmailInput) (t : String) :
    getEnhancedFallbackScore e ≤ getEnhancedFallbackScore (extendSnippet e t) := by
  unfold getEnhancedFallbackScore
  rw [emailText_extend]
  have hsender : (extendSnippet e t).sender = e.sender := rfl
  rw [hsender]
  refine min_le_min ?_ (le_refl 100)
  exact rawScore_mono e.sender (emailText e) (lowerL t.toList)
    (fun b hb => contains_domain_to_text e b (brands_lower b hb))

/-! ### Remote classification client

Embedding of `parseMLResult` (lines 215 to 259) and `getMLPrediction`
(lines 175 to 213).  JS numbers on this path are embedded as rationals. -/

structure ModelDescriptor where
  name : String
  url : String
  type : String
  deriving DecidableEq

/-- Lines 10 to 21: the configured model list, in failover priority order. -/
def models : List ModelDescriptor :=
  [⟨"Email Spam Detector",
    "https://api-inference.huggingface.co/models/mshenoda/roberta-spam",
    "classification"⟩,
   ⟨"SMS Phishing Detector",
    "https://api-inference.huggingface.co/models/mrm8488/bert-tiny-finetuned-sms-phishing-detection",
    "classification"⟩]

/-- One prediction object of a response body.  A JS object with a missing
or null label is represented by the empty string, which is falsy exactly
like the missing label in the `p.label &&` guards. -/
structure Pred where
  label : String
  score : ℚ
  deriving DecidableEq

/-- The parsed JSON body of a model response: not an array, a flat array of
predictions, or an array whose first element is itself an array of
predictions (line 220 checks `Array.isArray(result[0])`; further elements
of a nested outer array are ignored by the source). -/
inductive MLResponseBody where
  | nonArray : MLResponseBody
  | flat : List Pred → MLResponseBody
  | nested : List Pred → MLResponseBody
  deriving DecidableEq

/-- Lines 223 to 230: a positive-class label (case-insensitive substring
`spam` or `phishing`, or exactly `LABEL_1` or `1`). -/
def isSpamLabel (l : String) : Bool :=
  l != "" &&
    (containsL "spam".toList (lowerL l.toList) ||
     containsL "phishing".toList (lowerL l.toList) ||
     l == "LABEL_1" || l == "1")

/-- Lines 236 to 243: a negative-class label (case-insensitive substring
`ham` or `safe`, or exactly `LABEL_0` or `0`). -/
def isHamLabel (l : String) : Bool :=
  l != "" &&
    (containsL "ham".toList (lowerL l.toList) ||
     containsL "safe".toList (lowerL l.toList) ||
     l == "LABEL_0" || l == "0")

/-- Lines 216 to 249: the `(isPhishing, confidence)` pair.  `confidence`
starts at 0; a positive-class prediction sets it to `score * 100`, else a
negative-class prediction sets it to `(1 - score) * 100`. -/
def classifyPreds (preds : List Pred) : Bool × ℚ :=
  match preds.find? (fun p => isSpamLabel p.label) with
  | some sp => (true, sp.score * 100)
  | none =>
      match preds.find? (fun p => isHamLabel p.label) with
      | some hp => (false, (1 - hp.score) * 100)
      | none => (false, 0)

/-- The normalized classification record returned on lines 254 to 258. -/
structure ParsedResult where
  score : ℚ
  confidence : ℚ
  label : String
  deriving DecidableEq

/-- Lines 215 to 259: response normalization.  The returned `score` is
`confidence` when a positive-class label was found and `100 - confidence`
otherwise (line 252); it is the `mlScore` used downstream. -/
def parseMLResult (result : MLResponseBody) : ParsedResult :=
  let st : Bool × ℚ :=
    match result with
    | .nonArray => (false, 0)
    | .flat [] => (false, 0)
    | .flat (p :: ps) => classifyPreds (p :: ps)
    | .nested inner => classifyPreds inner
  { score := if st.1 then st.2 else 100 - st.2,
    confidence := st.2,
    label := if st.1 then "PHISHING" else "SAFE" }

/-- Claim C1 (code bug): a response whose only prediction is the
negative-class label `ham` with raw score 9/10 is normalized to phishing
score 90 and label SAFE.  Line 247 sets `confidence = (1 - s) * 100` and
line 252 then inverts again, so the returned score is `s * 100`, not the
`(1 - s) * 100 = 10` the specification states. -/
theorem parseMLResult_ham_inverted :
    parseMLResult (MLResponseBody.flat [⟨"ham", 9/10⟩]) =
      { score := 90, confidence := 10, label := "SAFE" } ∧
    (90 : ℚ) ≠ (1 - 9/10) * 100 := by
  have hspam : isSpamLabel "ham" = false := by decide
  have hham : isHamLabel "ham" = true := by decide
  constructor
  · simp only [parseMLResult, classifyPreds, List.find?, hspam, hham,
      ParsedResult.mk.injEq]
    norm_num
  · norm_num

/-- Claim C2 (code bug): on an empty or non-array response the normalizer
never throws and returns label SAFE, but its phishing score is
`100 - 0 = 100` (line 252 with `isPhishing = false`, `confidence = 0`),
not the 0 the specification states. -/
theorem parseMLResult_empty_inverted :
    parseMLResult (MLResponseBody.flat []) =
      { score := 100, confidence := 0, label := "SAFE" } ∧
    parseMLResult MLResponseBody.nonArray =
      { score := 100, confidence := 0, label := "SAFE" } := by
  constructor
  · simp only [parseMLResult, ParsedResult.mk.injEq]
    norm_num
  · simp only [parseMLResult, ParsedResult.mk.injEq]
    norm_num

/-- The outcome of one `fetch` to a model endpoint as observed by
`getMLPrediction`: a parsed body on `response.ok`, a non-ok HTTP status, or
a thrown network/JSON error. -/
inductive FetchOutcome where
  | ok : MLResponseBody → FetchOutcome
  | httpError : Nat → FetchOutcome
  | netError : FetchOutcome
  deriving DecidableEq

/-- The failures `getMLPrediction` can throw. -/
inductive MLError where
  | allModelsDeprecated : MLError
  | apiStatus : Nat → MLError
  | network : MLError
  deriving DecidableEq

/-- Lines 175 to 213: the remote prediction routine.  `fetchM idx body`
models the POST of the 500-character-truncated text to `models[idx]`; the
`Nat` argument is `this.currentModelIndex` on entry and the returned `Nat`
its value after the call (mutated only by the HTTP 410 failover on line
197, which wraps modulo `models.length` and throws at the wrap to 0).  The
source recursion has no syntactic bound; `fuel` bounds the recursion depth
and `none` marks exhaustion, which is never reached from
`fuel = models.length`. -/
def getMLPrediction (fetchM : Nat → List Char → FetchOutcome) (text : List Char) :
    Nat → Nat → Option (Except MLError ParsedResult × Nat)
  | _, 0 => none
  | idx, fuel + 1 =>
    match fetchM idx (text.take 500) with
    | .ok body => some (.ok (parseMLResult body), idx)
    | .httpError status =>
        if status = 410 then
          if (idx + 1) % models.length = 0 then
            some (.error .allModelsDeprecated, (idx + 1) % models.length)
          else getMLPrediction fetchM text ((idx + 1) % models.length) fuel
        else some (.error (.apiStatus status), idx)
    | .netError => some (.error .network, idx)

theorem models_length : models.length = 2 := rfl

/-- From index 1 the routine never recurses: the wrap `(1 + 1) % 2 = 0`
terminates it, so the result does not depend on the remaining fuel. -/
theorem getMLPrediction_idx1 (fm : Nat → List Char → FetchOutcome) (tx : List Char)
    (f : Nat) : getMLPrediction fm tx 1 (f + 1) = getMLPrediction fm tx 1 1 := by
  cases hfm : fm 1 (tx.take 500) with
  | ok body => simp [getMLPrediction, hfm]
  | netError => simp [getMLPrediction, hfm]
  | httpError s =>
    by_cases hs : s = 410
    · subst hs
      simp [getMLPrediction, hfm, models]
    · simp [getMLPrediction, hfm, hs]

/-- The result of a call stabilizes at fuel `models.length = 2`. -/
theorem getMLPrediction_stable (fm : Nat → List Char → FetchOutcome) (tx : List Char)
    (idx : Nat) (f : Nat) :
    getMLPrediction fm tx idx (f + 2) = getMLPrediction fm tx idx 2 := by
  show getMLPrediction fm tx idx ((f + 1) + 1) = getMLPrediction fm tx idx (1 + 1)
  cases hfm : fm idx (tx.take 500) with
  | ok body => simp [getMLPrediction, hfm]
  | netError => simp [getMLPrediction, hfm]
  | httpError s =>
    by_cases hs : s = 410
    · subst hs
      by_cases hnext : (idx + 1) % models.length = 0
      · simp [getMLPrediction, hfm, hnext]
      · have h1 : (idx + 1) % models.length = 1 := by
          rw [models_length] at hnext ⊢
          omega
        simp only [getMLPrediction, hfm, if_pos rfl, if_neg hnext, h1]
        exact getMLPrediction_idx1 fm tx f
    · simp [getMLPrediction, hfm, hs]

/-- With fuel `models.length` the routine always returns an answer (the
recursion never exhausts the fuel). -/
theorem getMLPrediction_total (fm : Nat → List Char → FetchOutcome) (tx : List Char)
    (idx : Nat) : (getMLPrediction fm tx idx 2).isSome = true := by
  show (getMLPrediction fm tx idx (1 + 1)).isSome = true
  cases hfm : fm idx (tx.take 500) with
  | ok body => simp [getMLPrediction, hfm]
  | netError => simp [getMLPrediction, hfm]
  | httpError s =>
    by_cases hs : s = 410
    · subst hs
      by_cases hnext : (idx + 1) % models.length = 0
      · simp [getMLPrediction, hfm, hnext]
      · have h1 : (idx + 1) % models.length = 1 := by
          rw [models_length] at hnext ⊢
          omega
        simp only [getMLPrediction, hfm, if_pos rfl, if_neg hnext, h1]
        cases hfm1 : fm 1 (tx.take 500) with
        | ok body => simp [getMLPrediction, hfm1]
        | netError => simp [getMLPrediction, hfm1]
        | httpError s1 =>
          by_cases hs1 : s1 = 410
          · subst hs1
            simp [getMLPrediction, hfm1, models]
          · simp [getMLPrediction, hfm1, hs1]
    · simp [getMLPrediction, hfm, hs]

/-- Claim C10: one remote prediction call always terminates within
`models.length` requests — the index strictly advances modulo the list
length and the wrap to index 0 raises an error — and extra fuel beyond
`models.length` never changes the outcome. -/
theorem getMLPrediction_terminates (fm : Nat → List Char → FetchOutcome)
    (tx : List Char) (idx : Nat) :
    (getMLPrediction fm tx idx models.length).isSome = true ∧
    ∀ fuel, models.length ≤ fuel →
      getMLPrediction fm tx idx fuel = getMLPrediction fm tx idx models.length := by
  constructor
  · exact getMLPrediction_total fm tx idx
  · intro fuel hfuel
    rw [models_length] at hfuel
    obtain ⟨f, rfl⟩ : ∃ f, fuel = f + 2 := ⟨fuel - 2, by omega⟩
    exact getMLPrediction_stable fm tx idx f

/-- All-410 oracle: every model is permanently gone. -/
def fetchAll410 : Nat → List Char → FetchOutcome := fun _ _ => .httpError 410

/-- Witness for C10 at a concrete oracle, index and fuel. -/
theorem getMLPrediction_terminates_witness :
    (getMLPrediction fetchAll410 [] 0 models.length).isSome = true ∧
    getMLPrediction fetchAll410 [] 0 3 = getMLPrediction fetchAll410 [] 0 models.length :=
  ⟨(getMLPrediction_terminates fetchAll410 [] 0).1,
   (getMLPrediction_terminates fetchAll410 [] 0).2 3 (by decide)⟩

/-- A fetch oracle where model 0 answers successfully and model 1 is
permanently gone (HTTP 410). -/
def fetchModelZeroOk : Nat → List Char → FetchOutcome := fun idx _ =>
  if idx = 0 then .ok (.flat [⟨"spam", 97/100⟩]) else .httpError 410

/-- Claim C4 counterexample: starting at `activeModelIndex = 1`, model 1
answers HTTP 410 and the call fails with the all-models-exhausted error at
the wrap to index 0 — although model 0 was never tried and would have
succeeded. -/
theorem getMLPrediction_skips_untried_model :
    fetchModelZeroOk 0 [] = .ok (.flat [⟨"spam", 97/100⟩]) ∧
    getMLPrediction fetchModelZeroOk [] 1 models.length =
      some (.error .allModelsDeprecated, 0) :=
  ⟨rfl, rfl⟩

/-- Claim C4 amended: starting from `activeModelIndex = 0`, the
all-models-exhausted error is raised only after every configured model was
tried and answered HTTP 410. -/
theorem getMLPrediction_exhaustion_from_zero (fm : Nat → List Char → FetchOutcome)
    (tx : List Char) (r : Nat)
    (h : getMLPrediction fm tx 0 models.length =
      some (.error .allModelsDeprecated, r)) :
    fm 0 (tx.take 500) = .httpError 410 ∧ fm 1 (tx.take 500) = .httpError 410 := by
  rw [show (models.length = 1 + 1) from rfl] at h
  cases hfm : fm 0 (tx.take 500) with
  | ok body => simp [getMLPrediction, hfm] at h
  | netError => simp [getMLPrediction, hfm] at h
  | httpError s =>
    by_cases hs : s = 410
    · subst hs
      refine ⟨rfl, ?_⟩
      simp only [getMLPrediction, hfm] at h
      rw [models_length] at h
      norm_num at h
      cases hfm1 : fm 1 (tx.take 500) with
      | ok body => simp [hfm1] at h
      | netError => simp [hfm1] at h
      | httpError s1 =>
        by_cases hs1 : s1 = 410
        · subst hs1; rfl
        · simp [hfm1, hs1] at h
    · simp [getMLPrediction, hfm, hs] at h

/-- Witness for the amended C4: with every model answering HTTP 410 from
index 0, the error is indeed preceded by a 410 from each model. -/
theorem getMLPrediction_exhaustion_witness :
    fetchAll410 0 (([] : List Char).take 500) = .httpError 410 ∧
    fetchAll410 1 (([] : List Char).take 500) = .httpError 410 :=
  getMLPrediction_exhaustion_from_zero fetchAll410 [] 0 rfl

/-- Claim C9: a non-410 HTTP status fails the call with that status and the
model index unchanged; a network error likewise; and whenever a call comes
back with a changed index, the request to the starting model answered
HTTP 410 — only the permanent-gone signal moves the index. -/
theorem getMLPrediction_frame (fm : Nat → List Char → FetchOutcome)
    (tx : List Char) (idx f : Nat) :
    (∀ s, s ≠ 410 → fm idx (tx.take 500) = .httpError s →
      getMLPrediction fm tx idx (f + 1) = some (.error (.apiStatus s), idx)) ∧
    (fm idx (tx.take 500) = .netError →
      getMLPrediction fm tx idx (f + 1) = some (.error .network, idx)) ∧
    (∀ out idx2, getMLPrediction fm tx idx (f + 1) = some (out, idx2) →
      idx2 ≠ idx → fm idx (tx.take 500) = .httpError 410) := by
  refine ⟨?_, ?_, ?_⟩
  · intro s hs hfm
    simp [getMLPrediction, hfm, hs]
  · intro hfm
    simp [getMLPrediction, hfm]
  · intro out idx2 h hne
    cases hfm : fm idx (tx.take 500) with
    | ok body =>
      simp only [getMLPrediction, hfm, Option.some.injEq, Prod.mk.injEq] at h
      exact absurd h.2.symm hne
    | netError =>
      simp only [getMLPrediction, hfm, Option.some.injEq, Prod.mk.injEq] at h
      exact absurd h.2.symm hne
    | httpError s =>
      by_cases hs : s = 410
      · subst hs; rfl
      · simp only [getMLPrediction, hfm, if_neg hs, Option.some.injEq,
          Prod.mk.injEq] at h
        exact absurd h.2.symm hne

/-- All-500 oracle: every model answers a transient server error. -/
def fetchAll500 : Nat → List Char → FetchOutcome := fun _ _ => .httpError 500

/-- Witness for C9: a 500 answer fails the call and keeps index 0. -/
theorem getMLPrediction_frame_witness :
    getMLPrediction fetchAll500 [] 0 2 = some (.error (.apiStatus 500), 0) :=
  (getMLPrediction_frame fetchAll500 [] 0 1).1 500 (by decide) rfl

/-! ### Hybrid scoring orchestrator and explanation generator

Embedding of `analyzeEmail` (lines 105 to 173), `generateReasons` (lines
330 to 357) and `getErrorResult` (lines 359 to 367). -/

/-- `Math.round`: nearest integer, half toward positive infinity. -/
def jsRound (q : ℚ) : ℤ := ⌊q + 1/2⌋

/-- `Number.prototype.toFixed(0)`: nearest integer, half away from zero
(every value formatted here is a nonnegative percentage). -/
def toFixed0 (q : ℚ) : ℤ := if 0 ≤ q then ⌊q + 1/2⌋ else -⌊-q + 1/2⌋

/-- Lines 133 to 154: the risk level as a function of the unrounded score,
evaluated high-to-low. -/
def riskLevelOf (mlScore : ℚ) : String :=
  if 65 ≤ mlScore then "high"
  else if 35 ≤ mlScore then "medium"
  else "low"

/-- Lines 135 to 154: the confidence text by risk band and scoring mode. -/
def confidenceTextOf (mlScore mlConfidence : ℚ) (usedML : Bool) : String :=
  if 65 ≤ mlScore then
    if usedML then "🤖 AI: " ++ toString (toFixed0 mlConfidence) ++ "% phishing"
    else "🚨 High risk detected"
  else if 35 ≤ mlScore then
    if usedML then "⚠️ AI: " ++ toString (toFixed0 mlConfidence) ++ "% suspicious"
    else "⚠️ Potentially suspicious"
  else
    if usedML then "✓ AI: " ++ toString (toFixed0 (100 - mlConfidence)) ++ "% safe"
    else "✓ Appears safe"

/-- Lines 335 to 341: the leading mode-indicator reason. -/
def modeReasonOf (score : ℚ) (usedML : Bool) : String :=
  if usedML then
    if 65 ≤ score then "🤖 AI detected phishing"
    else if 35 ≤ score then "🤖 AI flagged suspicious"
    else "🤖 AI verified safe"
  else "⚙️ Pattern detection (add API key for AI)"

/-- Lines 343 to 350: the content-signal reasons, pushed in source order
when their pattern matches; the suspicious-domain check is against the
sender (case-insensitive), all others against the normalized text. -/
def matchedSignals (e : EmailInput) : List String :=
  let text := emailText e
  let senderLower := lowerL e.sender.toList
  (if containsL "verify".toList text || containsL "confirm".toList text then
    ["🔒 Verification request"] else []) ++
  (if containsL "suspended".toList text || containsL "locked".toList text then
    ["⚠️ Account suspension claim"] else []) ++
  (if containsL "urgent".toList text || containsL "immediately".toList text then
    ["⚡ Urgency tactics"] else []) ++
  (if containsL "won".toList text || containsL "prize".toList text then
    ["🎰 Prize scam"] else []) ++
  (if containsL "$".toList text then ["💰 Money mentioned"] else []) ++
  (if containsL "click here".toList text then ["🔗 Click-bait"] else []) ++
  (if containsL ".tk".toList senderLower || containsL ".ml".toList senderLower ||
      containsL "tempmail".toList senderLower then
    ["🚨 Suspicious domain"] else []) ++
  (if containsL "password".toList text || containsL "credit card".toList text then
    ["🔐 Sensitive info request"] else [])

/-- Lines 330 to 357: the explanation generator.  One mode reason, then the
matched content signals; the fixed no-red-flags reason is appended when
nothing else was pushed (`reasons.length <= 1`); `slice(0, 5)` truncates
to five. -/
def generateReasons (score : ℚ) (e : EmailInput) (usedML : Bool) : List String :=
  let reasons := modeReasonOf score usedML :: matchedSignals e
  let reasons2 :=
    if reasons.length ≤ 1 then reasons ++ ["✓ No red flags"] else reasons
  reasons2.take 5

/-- The caller-facing record returned on lines 158 to 168; the `details`
projection is flattened into the three `details` fields. -/
structure ScoringResult where
  score : ℤ
  riskLevel : String
  confidence : String
  detailsMlScore : ℤ
  detailsMlConfidence : ℤ
  usedAI : Bool
  reasons : List String
  deriving DecidableEq

/-- Lines 359 to 367: the fixed degraded result of the catch handler. -/
def getErrorResult : ScoringResult :=
  { score := 50, riskLevel := "medium", confidence := "Unable to analyze",
    detailsMlScore := 50, detailsMlConfidence := 0, usedAI := false,
    reasons := ["⚠️ Analysis error"] }

/-- Lines 105 to 168: the body of the `try` block of `analyzeEmail`.
`mlAttempted` is `this.modelLoaded && this.apiKey`; `mlOutcome` is the
result of `getMLPrediction` when attempted (the inner catch on lines 124 to
127 turns any remote failure into the heuristic fallback for this call,
with `mlConfidence = 0` and `usedML = false`). -/
def analyzeEmailTry (e : EmailInput) (mlAttempted : Bool)
    (mlOutcome : Except MLError ParsedResult) : ScoringResult :=
  let st : ℚ × ℚ × Bool :=
    if mlAttempted then
      match mlOutcome with
      | .ok r => (r.score, r.confidence, true)
      | .error _ => ((getEnhancedFallbackScore e : ℚ), 0, false)
    else ((getEnhancedFallbackScore e : ℚ), 0, false)
  { score := jsRound st.1,
    riskLevel := riskLevelOf st.1,
    confidence := confidenceTextOf st.1 st.2.1 st.2.2,
    detailsMlScore := jsRound st.1,
    detailsMlConfidence := jsRound st.2.1,
    usedAI := st.2.2,
    reasons := generateReasons st.1 e st.2.2 }

/-- Lines 105 and 169 to 172: the orchestrator boundary.  The try-block
body either produces a result or raises; a raised exception is replaced by
`getErrorResult`.  (In this embedding the body is total — `analyzeEmailTry`
— so the error case stands for any uncaught JS exception in the scoring
path.) -/
def analyzeEmail (body : Except String ScoringResult) : ScoringResult :=
  match body with
  | .ok r => r
  | .error _ => getErrorResult

/-- Claim C7: any uncaught exception in the scoring path is caught at the
orchestrator boundary and replaced by the fixed degraded result — score 50,
medium risk, the unable-to-analyze confidence text and a single
analysis-error reason — instead of propagating to the caller. -/
theorem analyzeEmail_degrades_on_error (body : Except String ScoringResult)
    (err : String) (h : body = .error err) :
    analyzeEmail body = getErrorResult ∧
    getErrorResult.score = 50 ∧
    getErrorResult.riskLevel = "medium" ∧
    getErrorResult.confidence = "Unable to analyze" ∧
    getErrorResult.reasons = ["⚠️ Analysis error"] := by
  subst h
  exact ⟨rfl, rfl, rfl, rfl, rfl⟩

/-- Witness for C7 at a concrete raised exception. -/
theorem analyzeEmail_degrades_on_error_witness :
    analyzeEmail (Except.error "induced failure") = getErrorResult :=
  (analyzeEmail_degrades_on_error _ "induced failure" rfl).1

/-- Claim C5: exact risk-level boundaries for every integer score in
[0, 100]: 65 and above is high, 35 to 64 is medium, below 35 is low; the
boundary values 34, 35, 64 and 65 map to low, medium, medium and high. -/
theorem riskLevelOf_exact (n : ℕ) (_hn : n ≤ 100) :
    ((65 ≤ n → riskLevelOf n = "high") ∧
     (35 ≤ n ∧ n < 65 → riskLevelOf n = "medium") ∧
     (n < 35 → riskLevelOf n = "low")) ∧
    riskLevelOf 34 = "low" ∧ riskLevelOf 35 = "medium" ∧
    riskLevelOf 64 = "medium" ∧ riskLevelOf 65 = "high" := by
  refine ⟨⟨?_, ?_, ?_⟩, ?_, ?_, ?_, ?_⟩
  · intro h
    unfold riskLevelOf
    rw [if_pos (by exact_mod_cast h)]
  · rintro ⟨h1, h2⟩
    unfold riskLevelOf
    rw [if_neg (by rw [not_le]; exact_mod_cast h2), if_pos (by exact_mod_cast h1)]
  · intro h
    unfold riskLevelOf
    rw [if_neg (by rw [not_le]; exact_mod_cast lt_of_lt_of_le h (by norm_num)),
      if_neg (by rw [not_le]; exact_mod_cast h)]
  · norm_num [riskLevelOf]
  · norm_num [riskLevelOf]
  · norm_num [riskLevelOf]
  · norm_num [riskLevelOf]

/-- Witness for C5 at the boundary score 65. -/
theorem riskLevelOf_exact_witness : riskLevelOf (65 : ℕ) = "high" :=
  ((riskLevelOf_exact 65 (by norm_num)).1).1 (le_refl 65)

/-- Claim C8: the explanation generator always returns between 1 and 5
reasons, the first entry is the mode-indicator reason, and the fixed
no-red-flags reason is included whenever no content signal matched. -/
theorem generateReasons_spec (score : ℚ) (e : EmailInput) (usedML : Bool) :
    1 ≤ (generateReasons score e usedML).length ∧
    (generateReasons score e usedML).length ≤ 5 ∧
    (generateReasons score e usedML).head? = some (modeReasonOf score usedML) ∧
    (matchedSignals e = [] → "✓ No red flags" ∈ generateReasons score e usedML) := by
  cases hm : matchedSignals e with
  | nil => simp [generateReasons, hm]
  | cons a as =>
    have hg : generateReasons score e usedML =
        (modeReasonOf score usedML :: a :: as).take 5 := by
      simp only [generateReasons, hm]
      rw [if_neg (by simp only [List.length_cons]; omega)]
    refine ⟨?_, ?_, ?_, ?_⟩
    · rw [hg]
      simp only [List.length_take, List.length_cons]
      omega
    · rw [hg]
      simp only [List.length_take, List.length_cons]
      omega
    · rw [hg]
      rfl
    · intro h
      exact absurd h (by simp)

/-- Witness for C8: on an all-empty email no content signal matches and the
no-red-flags reason is returned. -/
theorem generateReasons_spec_witness :
    "✓ No red flags" ∈ generateReasons 0 ⟨"", "", ""⟩ false :=
  (generateReasons_spec 0 ⟨"", "", ""⟩ false).2.2.2 (by decide)

end MLDetector
